import Mathlib

/-!
Verification of the annotated-text segmentation engine of the `mediumrare`
repository (files `src/text_markup.rs` and `src/content.rs`).

Texts are modelled as `List Char` (a Rust `&str` is a UTF-8 string of unicode
scalar values; `List Char` is exactly its sequence of scalar values).  UTF-16
code-unit counts and UTF-8 byte counts are computed per scalar value, matching
`char::encode_utf16` and `char_indices`.  All Rust panics (including
debug-build arithmetic-underflow panics and `debug_assert!`) are modelled as
distinguished error values of `RErr`; fallible functions return `Except RErr`
or `Option`.
-/

namespace MediumRare

/-- Number of UTF-16 code units of one scalar value, as produced by Rust's
`char::encode_utf16` (2 for astral-plane codepoints, 1 otherwise). -/
def u16CharLen (c : Char) : Nat :=
  if c.toNat < 0x10000 then 1 else 2

/-- `utf16_len` from `text_markup.rs`: `content.encode_utf16().count()`. -/
def utf16_len (content : List Char) : Nat :=
  (content.map u16CharLen).sum

/-- UTF-8 byte length of a list of scalar values (Rust byte indices). -/
def utf8_len (content : List Char) : Nat :=
  (content.map Char.utf8Size).sum

/-- `utf16_to_byte_offset` from `text_markup.rs`.  The Rust loop walks
`char_indices`, returning the byte index of the first character at which the
accumulated UTF-16 count reaches `utf16_offset`; falling off the end is
`panic!("not in string")`, modelled as `none`.  The accumulated-count
comparison `utf16_count >= utf16_offset` is carried here as the truncated
subtraction of the remaining offset (`count ≥ off ↔ off - count = 0`). -/
def utf16_to_byte_offset : List Char → Nat → Option Nat
  | [], _ => none
  | c :: rest, off =>
      if off = 0 then some 0
      else (utf16_to_byte_offset rest (off - u16CharLen c)).map
        (fun b => c.utf8Size + b)

/-- Split a character list at a UTF-8 byte offset (Rust's `str::split_at`);
`none` if the offset is not a character boundary (Rust would panic). -/
def splitAtByte (s : List Char) (b : Nat) : Option (List Char × List Char) :=
  if b = 0 then some ([], s)
  else
    match s with
    | [] => none
    | c :: rest =>
        if c.utf8Size ≤ b then
          (splitAtByte rest (b - c.utf8Size)).map
            (fun pr => (c :: pr.1, pr.2))
        else none

/-- `split_at_utf16_offset` from `text_markup.rs`: translate the UTF-16 offset
to a byte offset, split there, and `assert_eq!(utf16_len(p), u16_len)` (the
failed assertion is modelled as `none`). -/
def split_at_utf16_offset (content : List Char) (u16len : Nat) :
    Option (List Char × List Char) := do
  let prefixLen ← utf16_to_byte_offset content u16len
  let (p, r) ← splitAtByte content prefixLen
  if utf16_len p = u16len then some (p, r) else none

/-- Output content node, `Content` from `content.rs`.  The `HashMap`
attributes are modelled as an association list. -/
inductive Content where
  | Text : List Char → Content
  | Tag : String → List (String × String) → Option (List Content) → Content
deriving Repr

/-- The character substitution performed by `Content::text`'s three
`.replace` calls. -/
def escapeChar (c : Char) : List Char :=
  if c = '&' then "&amp;".toList
  else if c = '<' then "&lt;".toList
  else if c = '>' then "&gt;".toList
  else [c]

/-- `Content::text` escaping, `content.rs` lines 56-63:
`.replace("&", "&amp;").replace("<", "&lt;").replace(">", "&gt;")`.
The three sequential replaces are equivalent to this per-character
substitution: `&lt;`/`&gt;` contain no `<` or `>`, and the later replaces do
not touch the `&` introduced by the first. -/
def escape (s : List Char) : List Char :=
  s.flatMap escapeChar

/-- The smart constructor `Content::text` (escapes, then builds the
`Content::Text` variant). -/
def Content.text (s : List Char) : Content :=
  Content.Text (escape s)

/-- `SpanWrap` from `text_markup.rs` — declared variants `Strong`,
`Emphasized`, `Link { href }`. -/
inductive SpanWrap where
  | Strong : SpanWrap
  | Emphasized : SpanWrap
  | Link : String → SpanWrap
deriving Repr, DecidableEq

/-- `SpanWrap::create_tag` from `text_markup.rs`. -/
def SpanWrap.create_tag : SpanWrap → List Content → Content
  | .Strong, children => .Tag "strong" [] (some children)
  | .Emphasized, children => .Tag "em" [] (some children)
  | .Link href, children => .Tag "a" [("href", href)] (some children)

/-- `TextSpan` from `text_markup.rs`.  The Rust struct holds `start`, `end`,
`content : SpanContent` (either `Text(&str)` or `Spans(Vec<TextSpan>)`) and
`wraps : Vec<SpanWrap>`; the two `SpanContent` variants are flattened into the
constructors `leaf` (`SpanContent::Text`) and `node` (`SpanContent::Spans`).
The field `stop` models the Rust field `end` (a Lean keyword). -/
inductive TextSpan where
  | leaf : Nat → Nat → List Char → List SpanWrap → TextSpan
  | node : Nat → Nat → List TextSpan → List SpanWrap → TextSpan
deriving Repr

/-- `start` field accessor. -/
def TextSpan.start : TextSpan → Nat
  | .leaf s _ _ _ => s
  | .node s _ _ _ => s

/-- `end` field accessor (named `stop`; `end` is a Lean keyword). -/
def TextSpan.stop : TextSpan → Nat
  | .leaf _ e _ _ => e
  | .node _ e _ _ => e

/-- `wraps` field accessor. -/
def TextSpan.wraps : TextSpan → List SpanWrap
  | .leaf _ _ _ w => w
  | .node _ _ _ w => w

/-- `TextSpan::add_wrap`: `self.wraps.push(wrap)`. -/
def TextSpan.add_wrap : TextSpan → SpanWrap → TextSpan
  | .leaf s e c w, wrap => .leaf s e c (w ++ [wrap])
  | .node s e c w, wrap => .node s e c (w ++ [wrap])

/-- Error type collecting `RenderingError` and every panic of the engine. -/
inductive RErr where
  /-- `RenderingError::NoSuchSpan(start, end)`. -/
  | noSuchSpan : Nat → Nat → RErr
  /-- `panic!("unknown markup type {}")` in `render_text`. -/
  | unknownMarkup : String → RErr
  /-- the `"CODE" => SpanWrap::Code` arm of `render_text`: `SpanWrap::Code`
  is not a declared variant of `SpanWrap` in `text_markup.rs` and
  `create_tag` has no arm for it, so this arm has no defined behaviour. -/
  | codeWrapUndeclared : RErr
  /-- debug-build underflow panic of `utf16_len(content) - 1` in
  `TextSpan::create` on an empty text. -/
  | createUnderflow : RErr
  /-- debug-build underflow panic of a `usize` subtraction in `split_str`. -/
  | subUnderflow : RErr
  /-- `debug_assert!(end >= start)` in `get_sub_span_mut`. -/
  | assertEndGeStart : Nat → Nat → RErr
  /-- `panic!("not in string")` in `utf16_to_byte_offset` or the failed
  `assert_eq!` in `split_at_utf16_offset`. -/
  | splitPanic : RErr
  /-- `panic!("something went wrong")` in `get_sub_span_mut`. -/
  | internalPanic : RErr
deriving Repr

/-- `TextSpan::create`: the root span `[0, utf16_len(content) - 1]`.  On an
empty text the subtraction `utf16_len(content) - 1` underflows (a debug-build
panic), modelled as `RErr.createUnderflow`. -/
def TextSpan.create (content : List Char) : Except RErr TextSpan :=
  if content.isEmpty then .error .createUnderflow
  else .ok (.leaf 0 (utf16_len content - 1) content [])

/-- `TextSpan::from_split`: a fresh leaf covering
`[start, start + utf16_len(content) - 1]`.  (At every call site `content` is
non-empty, so the subtraction does not underflow.) -/
def TextSpan.from_split (content : List Char) (start : Nat) : TextSpan :=
  .leaf start (start + utf16_len content - 1) content []

/-- `TextSpan::split_str` from `text_markup.rs`: split a raw leaf's text into
up to three parts (prefix, center, suffix) around `[start, stop]`, returning
the new child list and the index of the center.  The `usize` subtractions
`start - offset` and `end - start` are guarded (underflow is a debug-build
panic). -/
def TextSpan.split_str (content : List Char) (offset start stop : Nat) :
    Except RErr (List TextSpan × Nat) := do
  let (pre, remainder) ←
    if start = offset then
      pure ((none : Option TextSpan), content)
    else if start < offset then
      throw RErr.subUnderflow
    else
      match split_at_utf16_offset content (start - offset) with
      | none => throw RErr.splitPanic
      | some (p, r) => pure (some (TextSpan.from_split p offset), r)
  let (suf, center0) ←
    if utf16_len content - 1 + offset = stop then
      pure ((none : Option TextSpan), remainder)
    else if stop < start then
      throw RErr.subUnderflow
    else
      match split_at_utf16_offset remainder (stop - start + 1) with
      | none => throw RErr.splitPanic
      | some (c, s) => pure (some (TextSpan.from_split s (stop + 1)), c)
  let center := TextSpan.from_split center0
    (match pre with
     | some ts => ts.stop + 1
     | none => offset)
  match pre, suf with
  | none, none => pure ([center], 0)
  | none, some s => pure ([center, s], 0)
  | some p, none => pure ([p, center], 1)
  | some p, some s => pure ([p, center, s], 1)

mutual

/-- `TextSpan::get_sub_span_mut` from `text_markup.rs`.  The Rust function
mutates `self` in place and returns `&mut TextSpan` aliasing into it; the
caller then mutates the returned sub-span (`add_wrap`).  This is modelled by
the extra argument `f`, applied exactly once to the node the Rust code would
return a mutable reference to; the result is the pair (whole updated tree,
updated returned node).  The `debug_assert!(end >= start)` is the first
check; then `end` is clamped to `self.end`. -/
def TextSpan.get_sub_span_mut (t : TextSpan) (start stop : Nat)
    (f : TextSpan → TextSpan) : Except RErr (TextSpan × TextSpan) :=
  if stop < start then throw (RErr.assertEndGeStart start stop)
  else
    let stop := min stop t.stop
    if start = t.start ∧ stop = t.stop then
      let t' := f t
      pure (t', t')
    else
      match t with
      | .leaf st en content wraps => do
          let (spans, idx) ← TextSpan.split_str content st start stop
          match spans[idx]? with
          | some c =>
              let c' := f c
              pure (.node st en (spans.set idx c') wraps, c')
          | none => throw RErr.internalPanic
      | .node st en children wraps => do
          let (children', sub) ←
            TextSpan.get_sub_span_list children start stop f
          pure (.node st en children' wraps, sub)

/-- The `for span in subspans.iter_mut()` search of `get_sub_span_mut`'s
`SpanContent::Spans` branch: recurse into the first child whose range
contains `[start, stop]`; if none does, `RenderingError::NoSuchSpan`. -/
def TextSpan.get_sub_span_list (l : List TextSpan) (start stop : Nat)
    (f : TextSpan → TextSpan) : Except RErr (List TextSpan × TextSpan) :=
  match l with
  | [] => throw (RErr.noSuchSpan start stop)
  | c :: rest =>
      if c.start ≤ start ∧ stop ≤ c.stop then do
        let (c', sub) ← TextSpan.get_sub_span_mut c start stop f
        pure (c' :: rest, sub)
      else do
        let (rest', sub) ← TextSpan.get_sub_span_list rest start stop f
        pure (c :: rest', sub)

end

/-- The wrap-application loop of `impl Into<Vec<Content>> for TextSpan`:
`for wrapper in self.wraps { wrapped = vec![wrapper.create_tag(wrapped)]; }`
(the `is_empty` early return agrees with the fold on `[]`). -/
def applyWraps (inner : List Content) (wraps : List SpanWrap) : List Content :=
  wraps.foldl (fun acc w => [w.create_tag acc]) inner

mutual

/-- `impl Into<Vec<Content>> for TextSpan` (the tree flattener): a raw leaf
becomes one `Content::text` node, a branch concatenates its children's
flattenings, then the wraps are applied in stored order. -/
def TextSpan.intoContents : TextSpan → List Content
  | .leaf _ _ content wraps => applyWraps [Content.text content] wraps
  | .node _ _ children wraps =>
      applyWraps (TextSpan.intoContentsList children) wraps

/-- `flat_map` over the children in `Into<Vec<Content>>`. -/
def TextSpan.intoContentsList : List TextSpan → List Content
  | [] => []
  | c :: rest => TextSpan.intoContents c ++ TextSpan.intoContentsList rest

end

/-- `Markup` from `client.rs` (the deserialized input range).  The field
`stop` models the Rust field `end` and `ty` models `r#type`. -/
structure Markup where
  stop : Nat
  start : Nat
  href : Option String
  ty : String
deriving Repr

/-- Result of the markup-kind `match` in `render_text` (`content.rs` lines
107-115). -/
inductive MarkupResolution where
  /-- one of the declared wraps (`STRONG`, `EM`, `A`). -/
  | wrap : SpanWrap → MarkupResolution
  /-- the `"CODE" => SpanWrap::Code` arm: `SpanWrap::Code` is not declared
  in `text_markup.rs`. -/
  | code : MarkupResolution
  /-- the wildcard arm `panic!("unknown markup type {}")`. -/
  | unknown : String → MarkupResolution
deriving Repr, DecidableEq

/-- The markup-kind `match` of `render_text`:
`"STRONG" => Strong, "CODE" => SpanWrap::Code, "EM" => Emphasized,
"A" => Link { href: markup.href.unwrap_or("") }, _ => panic!`. -/
def resolve_markup_type (ty : String) (href : Option String) :
    MarkupResolution :=
  if ty = "STRONG" then .wrap .Strong
  else if ty = "CODE" then .code
  else if ty = "EM" then .wrap .Emphasized
  else if ty = "A" then .wrap (.Link (href.getD ""))
  else .unknown ty

/-- The sort key of `render_text`'s comparator: `r.end - r.start` (`usize`
subtraction, truncated here; no claim is settled on a markup with
`stop < start` passing through the sort). -/
def markupKey (m : Markup) : Nat := m.stop - m.start

/-- Stable descending insertion: place `m` after every already-placed
element of key `≥ markupKey m`. -/
def insertDesc (m : Markup) : List Markup → List Markup
  | [] => [m]
  | x :: xs =>
      if markupKey x < markupKey m then m :: x :: xs
      else x :: insertDesc m xs

/-- `sorted_markup.sort_by(|l, r| (r.end - r.start).cmp(&(l.end - l.start)))`:
a stable sort by descending `end − start`; equal keys keep input order.
Modelled as a stable insertion sort. -/
def sortMarkups (markups : List Markup) : List Markup :=
  markups.foldl (fun acc m => insertDesc m acc) []

/-- One iteration of `render_text`'s markup loop: obtain the exact covering
sub-span (splitting as needed), resolve the markup kind (the resolution is a
pure function; in the source the kind `match` sits after the `get_sub_span_mut`
call, so a span error takes precedence over an unknown-kind panic), and push
the wrap onto the returned sub-span.  The `anyhow` `.context(...)` wrapper is
dropped (it decorates, but does not change, the error). -/
def applyMarkup (t : TextSpan) (m : Markup) : Except RErr TextSpan :=
  match resolve_markup_type m.ty m.href with
  | .wrap w =>
      (t.get_sub_span_mut m.start m.stop (fun u => u.add_wrap w)).map
        (fun p => p.1)
  | .code => do
      let _ ← t.get_sub_span_mut m.start m.stop id
      throw RErr.codeWrapUndeclared
  | .unknown ty => do
      let _ ← t.get_sub_span_mut m.start m.stop id
      throw (RErr.unknownMarkup ty)

/-- `render_text` from `content.rs`: empty markup list short-circuits to a
single `Content::text` node; otherwise build the root span, apply the ranges
sorted by descending length, and flatten. -/
def render_text (text : List Char) (markups : List Markup) :
    Except RErr (List Content) :=
  if markups.isEmpty then .ok [Content.text text]
  else do
    let root ← TextSpan.create text
    let final ← (sortMarkups markups).foldlM applyMarkup root
    .ok final.intoContents

mutual

/-- Concatenation, in order, of the raw text held by a span tree's leaves. -/
def TextSpan.leafText : TextSpan → List Char
  | .leaf _ _ content _ => content
  | .node _ _ children _ => TextSpan.leafTextList children

/-- `TextSpan.leafText` over a child list. -/
def TextSpan.leafTextList : List TextSpan → List Char
  | [] => []
  | c :: rest => TextSpan.leafText c ++ TextSpan.leafTextList rest

end

mutual

/-- Concatenation, in order, of the strings of the `Text` leaves of one
output content node (descending through `Tag` children). -/
def Content.textLeaves : Content → List Char
  | .Text s => s
  | .Tag _ _ none => []
  | .Tag _ _ (some cs) => Content.textLeavesList cs

/-- `Content.textLeaves` over a node list. -/
def Content.textLeavesList : List Content → List Char
  | [] => []
  | c :: rest => Content.textLeaves c ++ Content.textLeavesList rest

end

mutual

/-- Well-formedness of a span tree, the invariant stated by the data model
and maintained by the engine: a leaf's text is non-empty and its range is
exactly as long (in UTF-16 units) as the text; a node's children are
non-empty, contiguous, gap-free and tile exactly the parent range. -/
def TextSpan.wf : TextSpan → Bool
  | .leaf start stop content _ =>
      !content.isEmpty && (stop + 1 == start + utf16_len content)
  | .node start stop children _ => TextSpan.wfList start stop children

/-- Children tile `[pos, stop]` exactly: the first child starts at `pos`,
each next child starts right after the previous one ends, the last child
ends at `stop`, and each child is itself well-formed. -/
def TextSpan.wfList (pos stop : Nat) : List TextSpan → Bool
  | [] => false
  | [c] => TextSpan.wf c && c.start == pos && c.stop == stop
  | c :: rest =>
      TextSpan.wf c && c.start == pos && TextSpan.wfList (c.stop + 1) stop rest

end

/-- `n` is a UTF-16 codepoint-boundary offset of `text`: the UTF-16 length
of some prefix of `text`. -/
def isBoundary (text : List Char) (n : Nat) : Bool :=
  (List.range (text.length + 1)).any (fun k => utf16_len (text.take k) == n)

/-- The flattener's `inner` value: a span's assembled content before its
wraps are applied (the `match self.content` of `Into<Vec<Content>>`). -/
def TextSpan.assembled : TextSpan → List Content
  | .leaf _ _ content _ => [Content.text content]
  | .node _ _ children _ => TextSpan.intoContentsList children

/-- Wrap application as the specification words it: each wrap, in stored
order, re-wraps the entire currently assembled content as the sole children
of one new tagged node (so the head wrap is applied first, innermost). -/
def applyWrapsSpec (inner : List Content) : List SpanWrap → List Content
  | [] => inner
  | w :: ws => applyWrapsSpec [w.create_tag inner] ws

/-! ## Basic lemmas about UTF-16/UTF-8 measures and escaping -/

theorem u16CharLen_pos (c : Char) : 1 ≤ u16CharLen c := by
  unfold u16CharLen; split <;> omega

theorem utf16_len_nil : utf16_len [] = 0 := rfl

theorem utf16_len_cons (c : Char) (s : List Char) :
    utf16_len (c :: s) = u16CharLen c + utf16_len s := rfl

theorem utf8_len_cons (c : Char) (s : List Char) :
    utf8_len (c :: s) = c.utf8Size + utf8_len s := rfl

theorem utf16_len_append (a b : List Char) :
    utf16_len (a ++ b) = utf16_len a + utf16_len b := by
  induction a with
  | nil => simp [utf16_len_nil]
  | cons c rest ih => simp [utf16_len_cons, ih]; omega

theorem utf16_len_pos (content : List Char) (h : content ≠ []) :
    1 ≤ utf16_len content := by
  cases content with
  | nil => exact absurd rfl h
  | cons c rest =>
      have := u16CharLen_pos c
      rw [utf16_len_cons]; omega

theorem escape_eq_self (text : List Char)
    (h : ∀ c ∈ text, c ≠ '&' ∧ c ≠ '<' ∧ c ≠ '>') : escape text = text := by
  induction text with
  | nil => rfl
  | cons c rest ih =>
      have hc := h c (by simp)
      have hrest := ih (fun d hd => h d (by simp [hd]))
      simp only [escape, List.flatMap_cons] at *
      rw [hrest]
      simp [escapeChar, hc.1, hc.2.1, hc.2.2]

/-! ## The offset translator -/

theorem utf16_to_byte_offset_boundary :
    ∀ (content : List Char) (k : Nat), k < content.length →
      utf16_to_byte_offset content (utf16_len (content.take k)) =
        some (utf8_len (content.take k)) := by
  intro content
  induction content with
  | nil => intro k hk; simp at hk
  | cons c rest ih =>
      intro k hk
      cases k with
      | zero => simp [utf16_to_byte_offset, utf16_len, utf8_len]
      | succ k =>
          have hk' : k < rest.length := by simpa using hk
          have hpos := u16CharLen_pos c
          have htake : (c :: rest).take (k + 1) = c :: rest.take k := rfl
          rw [htake, utf16_len_cons]
          unfold utf16_to_byte_offset
          have hne : ¬ (u16CharLen c + utf16_len (rest.take k) = 0) := by omega
          rw [if_neg hne]
          have hsub : u16CharLen c + utf16_len (rest.take k) - u16CharLen c =
              utf16_len (rest.take k) := by omega
          rw [hsub, ih k hk']
          simp [utf8_len_cons]

theorem utf16_to_byte_offset_none :
    ∀ (content : List Char) (off : Nat), utf16_len content ≤ off →
      utf16_to_byte_offset content off = none := by
  intro content
  induction content with
  | nil => intro off _; rfl
  | cons c rest ih =>
      intro off hoff
      rw [utf16_len_cons] at hoff
      have hpos := u16CharLen_pos c
      unfold utf16_to_byte_offset
      have hne : ¬ (off = 0) := by omega
      rw [if_neg hne, ih (off - u16CharLen c) (by omega)]
      rfl

/-! ## Splitting lemmas -/

theorem splitAtByte_append :
    ∀ (s : List Char) (b : Nat) (p r : List Char),
      splitAtByte s b = some (p, r) → s = p ++ r := by
  intro s
  induction s with
  | nil =>
      intro b p r h
      unfold splitAtByte at h
      by_cases hb : b = 0
      · rw [if_pos hb] at h
        injection h with h'
        obtain ⟨rfl, rfl⟩ := Prod.mk.inj h'
        rfl
      · rw [if_neg hb] at h
        exact absurd h (by simp)
  | cons c rest ih =>
      intro b p r h
      unfold splitAtByte at h
      by_cases hb : b = 0
      · rw [if_pos hb] at h
        injection h with h'
        obtain ⟨rfl, rfl⟩ := Prod.mk.inj h'
        rfl
      · rw [if_neg hb] at h
        dsimp only [] at h
        by_cases hsz : c.utf8Size ≤ b
        · rw [if_pos hsz] at h
          cases hrec : splitAtByte rest (b - c.utf8Size) with
          | none => rw [hrec] at h; exact absurd h (by simp)
          | some pr =>
              rw [hrec] at h
              injection h with h'
              obtain ⟨rfl, rfl⟩ := Prod.mk.inj h'.symm
              simp [ih _ pr.1 pr.2 (by rw [hrec])]
        · rw [if_neg hsz] at h
          exact absurd h (by simp)

theorem splitAtByte_take :
    ∀ (s : List Char) (k : Nat),
      splitAtByte s (utf8_len (s.take k)) = some (s.take k, s.drop k) := by
  intro s
  induction s with
  | nil => intro k; simp [splitAtByte, utf8_len]
  | cons c rest ih =>
      intro k
      cases k with
      | zero => simp [splitAtByte, utf8_len]
      | succ k =>
          have hpos := Char.utf8Size_pos c
          rw [List.take_succ_cons, utf8_len_cons]
          unfold splitAtByte
          rw [if_neg (by omega)]
          dsimp only []
          rw [if_pos (by omega : c.utf8Size ≤ c.utf8Size + utf8_len (rest.take k)),
            Nat.add_sub_cancel_left, ih k]
          rfl

theorem split_at_utf16_ok (content : List Char) (n : Nat) (p r : List Char)
    (h : split_at_utf16_offset content n = some (p, r)) :
    content = p ++ r ∧ utf16_len p = n ∧ n < utf16_len content := by
  unfold split_at_utf16_offset at h
  cases hb : utf16_to_byte_offset content n with
  | none => rw [hb] at h; exact absurd h (by simp)
  | some prefixLen =>
      rw [hb] at h
      dsimp only [Bind.bind, Option.bind] at h
      cases hs : splitAtByte content prefixLen with
      | none => rw [hs] at h; exact absurd h (by simp)
      | some pr =>
          obtain ⟨p0, r0⟩ := pr
          rw [hs] at h
          dsimp only [] at h
          by_cases hlen : utf16_len p0 = n
          · rw [if_pos hlen] at h
            injection h with h'
            obtain ⟨rfl, rfl⟩ := Prod.mk.inj h'
            refine ⟨splitAtByte_append content prefixLen p0 r0 (by rw [hs]), hlen, ?_⟩
            by_contra hle
            rw [utf16_to_byte_offset_none content n (by omega)] at hb
            exact absurd hb (by simp)
          · rw [if_neg hlen] at h
            exact absurd h (by simp)

theorem split_at_utf16_eq_take (content : List Char) (k : Nat)
    (hk : k < content.length) :
    split_at_utf16_offset content (utf16_len (content.take k)) =
      some (content.take k, content.drop k) := by
  unfold split_at_utf16_offset
  rw [utf16_to_byte_offset_boundary content k hk]
  show (splitAtByte content (utf8_len (content.take k))).bind _ = _
  rw [splitAtByte_take content k]
  simp

theorem utf16_len_take_add (l : List Char) (k k' : Nat) (h : k ≤ k') :
    utf16_len (l.take k') =
      utf16_len (l.take k) + utf16_len ((l.drop k).take (k' - k)) := by
  have heq : l.take k' = l.take k ++ (l.drop k).take (k' - k) := by
    rw [← List.take_add]; congr 1; omega
  rw [heq, utf16_len_append]

theorem utf16_len_take_le (l : List Char) (k : Nat) :
    utf16_len (l.take k) ≤ utf16_len l := by
  conv_rhs => rw [← List.take_append_drop k l]
  rw [utf16_len_append]; omega

/-! ## Reduction lemmas for the Except monad -/

theorem except_pure {α : Type} (x : α) : (pure x : Except RErr α) = .ok x := rfl

theorem except_throw {α : Type} (e : RErr) :
    (throw e : Except RErr α) = .error e := rfl

theorem except_pure_bind {α β : Type} (x : α) (f : α → Except RErr β) :
    (pure x : Except RErr α) >>= f = f x := rfl

theorem except_ok_bind {α β : Type} (x : α) (f : α → Except RErr β) :
    (Except.ok x : Except RErr α) >>= f = f x := rfl

theorem except_error_bind {α β : Type} (e : RErr) (f : α → Except RErr β) :
    (Except.error e : Except RErr α) >>= f = .error e := rfl

theorem except_throw_bind {α β : Type} (e : RErr) (f : α → Except RErr β) :
    (throw e : Except RErr α) >>= f = .error e := rfl

theorem except_map_ok {α β : Type} (g : α → β) (x : α) :
    (Except.ok x : Except RErr α).map g = .ok (g x) := rfl

theorem except_map_error {α β : Type} (g : α → β) (e : RErr) :
    (Except.error e : Except RErr α).map g = .error e := rfl

/-! ## split_str lemmas -/

theorem split_str_concat (content : List Char) (st s e : Nat)
    (spans : List TextSpan) (idx : Nat)
    (h : TextSpan.split_str content st s e = .ok (spans, idx)) :
    TextSpan.leafTextList spans = content := by
  unfold TextSpan.split_str at h
  by_cases h1 : s = st
  · rw [if_pos h1] at h
    simp only [except_pure, except_throw, except_pure_bind, except_ok_bind, except_error_bind, except_throw_bind] at h
    by_cases h2 : utf16_len content - 1 + st = e
    · rw [if_pos h2] at h
      injection h with h'
      obtain ⟨rfl, rfl⟩ := Prod.mk.inj h'.symm
      simp [TextSpan.leafTextList, TextSpan.leafText, TextSpan.from_split]
    · rw [if_neg h2] at h
      by_cases h3 : e < s
      · rw [if_pos h3] at h
        exact Except.noConfusion h
      · rw [if_neg h3] at h
        cases hq : split_at_utf16_offset content (e - s + 1) with
        | none => rw [hq] at h; exact Except.noConfusion h
        | some pr =>
            obtain ⟨c, sfx⟩ := pr
            rw [hq] at h
            simp only [except_pure, except_throw, except_pure_bind, except_ok_bind, except_error_bind, except_throw_bind] at h
            injection h with h'
            obtain ⟨rfl, rfl⟩ := Prod.mk.inj h'.symm
            have hcat := (split_at_utf16_ok content (e - s + 1) c sfx hq).1
            simp [TextSpan.leafTextList, TextSpan.leafText, TextSpan.from_split,
              hcat]
  · rw [if_neg h1] at h
    by_cases h1' : s < st
    · rw [if_pos h1'] at h
      exact Except.noConfusion h
    · rw [if_neg h1'] at h
      cases hp : split_at_utf16_offset content (s - st) with
      | none => rw [hp] at h; exact Except.noConfusion h
      | some pr =>
          obtain ⟨p, r⟩ := pr
          rw [hp] at h
          simp only [except_pure, except_throw, except_pure_bind, except_ok_bind, except_error_bind, except_throw_bind] at h
          have hcat1 := (split_at_utf16_ok content (s - st) p r hp).1
          by_cases h2 : utf16_len content - 1 + st = e
          · rw [if_pos h2] at h
            injection h with h'
            obtain ⟨rfl, rfl⟩ := Prod.mk.inj h'.symm
            simp [TextSpan.leafTextList, TextSpan.leafText, TextSpan.from_split,
              hcat1]
          · rw [if_neg h2] at h
            by_cases h3 : e < s
            · rw [if_pos h3] at h
              exact Except.noConfusion h
            · rw [if_neg h3] at h
              cases hq : split_at_utf16_offset r (e - s + 1) with
              | none => rw [hq] at h; exact Except.noConfusion h
              | some qr =>
                  obtain ⟨c, sfx⟩ := qr
                  rw [hq] at h
                  simp only [except_pure, except_throw, except_pure_bind, except_ok_bind, except_error_bind, except_throw_bind] at h
                  injection h with h'
                  obtain ⟨rfl, rfl⟩ := Prod.mk.inj h'.symm
                  have hcat2 := (split_at_utf16_ok r (e - s + 1) c sfx hq).1
                  simp [TextSpan.leafTextList, TextSpan.leafText,
                    TextSpan.from_split, hcat1, hcat2]

/-- Exact shape of a successful `split_str` on a well-formed leaf: the
request is in range, and the produced children are a prefix/center/suffix
tiling of `[st, en]` around the exact center `[s, e]`, the center sitting at
the returned index. -/
theorem split_str_shape (content : List Char) (st s e en : Nat)
    (hne : content ≠ []) (hen : en + 1 = st + utf16_len content)
    (spans : List TextSpan) (idx : Nat)
    (h : TextSpan.split_str content st s e = .ok (spans, idx)) :
    st ≤ s ∧ s ≤ e ∧ e ≤ en ∧
    ((s = st ∧ e = en ∧ spans = [.leaf s e content []] ∧ idx = 0) ∨
     (s = st ∧ e < en ∧ ∃ c q, content = c ++ q ∧
        utf16_len c = e + 1 - s ∧ utf16_len q = en - e ∧
        spans = [.leaf s e c [], .leaf (e + 1) en q []] ∧ idx = 0) ∨
     (st < s ∧ e = en ∧ ∃ p c, content = p ++ c ∧
        utf16_len p = s - st ∧ utf16_len c = e + 1 - s ∧
        spans = [.leaf st (s - 1) p [], .leaf s e c []] ∧ idx = 1) ∨
     (st < s ∧ e < en ∧ ∃ p c q, content = p ++ c ++ q ∧
        utf16_len p = s - st ∧ utf16_len c = e + 1 - s ∧ utf16_len q = en - e ∧
        spans = [.leaf st (s - 1) p [], .leaf s e c [], .leaf (e + 1) en q []] ∧
        idx = 1)) := by
  have hL : 1 ≤ utf16_len content := utf16_len_pos content hne
  unfold TextSpan.split_str at h
  by_cases h1 : s = st
  · rw [if_pos h1] at h
    simp only [except_pure, except_throw, except_pure_bind, except_ok_bind,
      except_error_bind, except_throw_bind] at h
    by_cases h2 : utf16_len content - 1 + st = e
    · rw [if_pos h2] at h
      injection h with h'
      obtain ⟨rfl, rfl⟩ := Prod.mk.inj h'.symm
      refine ⟨by omega, by omega, by omega, Or.inl ⟨h1, by omega, ?_, rfl⟩⟩
      rw [TextSpan.from_split, ← h1, show s + utf16_len content - 1 = e by omega]
    · rw [if_neg h2] at h
      by_cases h3 : e < s
      · rw [if_pos h3] at h
        exact Except.noConfusion h
      · rw [if_neg h3] at h
        cases hq : split_at_utf16_offset content (e - s + 1) with
        | none => rw [hq] at h; exact Except.noConfusion h
        | some pr =>
            obtain ⟨c, q⟩ := pr
            rw [hq] at h
            simp only [except_pure, except_throw, except_pure_bind,
              except_ok_bind, except_error_bind, except_throw_bind] at h
            injection h with h'
            obtain ⟨rfl, rfl⟩ := Prod.mk.inj h'.symm
            obtain ⟨hcat, hlenc, hbound⟩ :=
              split_at_utf16_ok content (e - s + 1) c q hq
            have hadd : utf16_len content = utf16_len c + utf16_len q := by
              rw [hcat, utf16_len_append]
            refine ⟨by omega, by omega, by omega,
              Or.inr (Or.inl ⟨h1, by omega, c, q, hcat, by omega, by omega,
                ?_, rfl⟩)⟩
            have hc : TextSpan.from_split c st = TextSpan.leaf s e c [] := by
              rw [TextSpan.from_split, ← h1,
                show s + utf16_len c - 1 = e by omega]
            have hq' : TextSpan.from_split q (e + 1) =
                TextSpan.leaf (e + 1) en q [] := by
              rw [TextSpan.from_split,
                show e + 1 + utf16_len q - 1 = en by omega]
            rw [hc, hq']
  · rw [if_neg h1] at h
    by_cases h1' : s < st
    · rw [if_pos h1'] at h
      exact Except.noConfusion h
    · rw [if_neg h1'] at h
      cases hp : split_at_utf16_offset content (s - st) with
      | none => rw [hp] at h; exact Except.noConfusion h
      | some pr =>
          obtain ⟨p, r⟩ := pr
          rw [hp] at h
          simp only [except_pure, except_throw, except_pure_bind,
            except_ok_bind, except_error_bind, except_throw_bind] at h
          obtain ⟨hcat1, hlenp, hbound1⟩ :=
            split_at_utf16_ok content (s - st) p r hp
          have hadd1 : utf16_len content = utf16_len p + utf16_len r := by
            rw [hcat1, utf16_len_append]
          have hpre : TextSpan.from_split p st =
              TextSpan.leaf st (s - 1) p [] := by
            rw [TextSpan.from_split, show st + utf16_len p - 1 = s - 1 by omega]
          by_cases h2 : utf16_len content - 1 + st = e
          · rw [if_pos h2] at h
            injection h with h'
            obtain ⟨rfl, rfl⟩ := Prod.mk.inj h'.symm
            refine ⟨by omega, by omega, by omega,
              Or.inr (Or.inr (Or.inl ⟨by omega, by omega, p, r, hcat1,
                hlenp, by omega, ?_, rfl⟩))⟩
            have hcen : TextSpan.from_split r
                ((TextSpan.from_split p st).stop + 1) =
                TextSpan.leaf s e r [] := by
              rw [hpre]
              rw [TextSpan.from_split, TextSpan.stop,
                show s - 1 + 1 = s by omega,
                show s + utf16_len r - 1 = e by omega]
            rw [hcen, hpre]
          · rw [if_neg h2] at h
            by_cases h3 : e < s
            · rw [if_pos h3] at h
              exact Except.noConfusion h
            · rw [if_neg h3] at h
              cases hq : split_at_utf16_offset r (e - s + 1) with
              | none => rw [hq] at h; exact Except.noConfusion h
              | some qr =>
                  obtain ⟨c, q⟩ := qr
                  rw [hq] at h
                  simp only [except_pure, except_throw, except_pure_bind,
                    except_ok_bind, except_error_bind, except_throw_bind] at h
                  injection h with h'
                  obtain ⟨rfl, rfl⟩ := Prod.mk.inj h'.symm
                  obtain ⟨hcat2, hlenc, hbound2⟩ :=
                    split_at_utf16_ok r (e - s + 1) c q hq
                  have hadd2 : utf16_len r = utf16_len c + utf16_len q := by
                    rw [hcat2, utf16_len_append]
                  refine ⟨by omega, by omega, by omega,
                    Or.inr (Or.inr (Or.inr ⟨by omega, by omega, p, c, q,
                      by rw [hcat1, hcat2, List.append_assoc],
                      hlenp, by omega, by omega, ?_, rfl⟩))⟩
                  have hcen : TextSpan.from_split c
                      ((TextSpan.from_split p st).stop + 1) =
                      TextSpan.leaf s e c [] := by
                    rw [hpre]
                    rw [TextSpan.from_split, TextSpan.stop,
                      show s - 1 + 1 = s by omega,
                      show s + utf16_len c - 1 = e by omega]
                  have hsuf : TextSpan.from_split q (e + 1) =
                      TextSpan.leaf (e + 1) en q [] := by
                    rw [TextSpan.from_split,
                      show e + 1 + utf16_len q - 1 = en by omega]
                  rw [hcen, hsuf, hpre]

/-! ## Idempotence machinery -/

theorem gss_range (t : TextSpan) (s e : Nat) (f : TextSpan → TextSpan)
    (hf : ∀ u, (f u).start = u.start ∧ (f u).stop = u.stop)
    (t' sub : TextSpan) (h : t.get_sub_span_mut s e f = .ok (t', sub)) :
    t'.start = t.start ∧ t'.stop = t.stop := by
  rw [TextSpan.get_sub_span_mut] at h
  by_cases hA : e < s
  · rw [if_pos hA] at h; exact Except.noConfusion h
  · rw [if_neg hA] at h
    by_cases hB : s = t.start ∧ min e t.stop = t.stop
    · rw [if_pos hB] at h
      simp only [except_pure] at h
      injection h with h'
      obtain ⟨rfl, rfl⟩ := Prod.mk.inj h'.symm
      exact hf t
    · rw [if_neg hB] at h
      cases t with
      | leaf st en content wraps =>
          simp only [TextSpan.stop] at h
          cases hs : TextSpan.split_str content st s (min e en) with
          | error err => rw [hs] at h; exact Except.noConfusion h
          | ok pr =>
              obtain ⟨spans, idx⟩ := pr
              rw [hs] at h
              simp only [except_pure_bind, except_ok_bind, except_pure] at h
              cases hg : spans[idx]? with
              | none => rw [hg] at h; exact Except.noConfusion h
              | some c =>
                  rw [hg] at h
                  simp only [except_pure] at h
                  injection h with h'
                  obtain ⟨rfl, rfl⟩ := Prod.mk.inj h'.symm
                  exact ⟨rfl, rfl⟩
      | node st en children wraps =>
          simp only [TextSpan.stop] at h
          cases hd : TextSpan.get_sub_span_list children s (min e en) f with
          | error err => rw [hd] at h; exact Except.noConfusion h
          | ok pr =>
              obtain ⟨children', sub'⟩ := pr
              rw [hd] at h
              simp only [except_pure_bind, except_ok_bind, except_pure] at h
              injection h with h'
              obtain ⟨rfl, rfl⟩ := Prod.mk.inj h'.symm
              exact ⟨rfl, rfl⟩

theorem wfList_mem :
    ∀ (l : List TextSpan) (pos en : Nat),
      TextSpan.wfList pos en l = true → ∀ c ∈ l, c.wf = true := by
  intro l
  induction l with
  | nil => intro pos en h; simp [TextSpan.wfList] at h
  | cons c rest ih =>
      intro pos en h c' hc'
      cases rest with
      | nil =>
          simp only [TextSpan.wfList, Bool.and_eq_true] at h
          simp only [List.mem_singleton] at hc'
          subst hc'
          exact h.1.1
      | cons d rest2 =>
          simp only [TextSpan.wfList, Bool.and_eq_true] at h
          rcases List.mem_cons.mp hc' with rfl | hmem
          · exact h.1.1
          · exact ih (c.stop + 1) en h.2 c' hmem

/-- Early-return case of the splitter: a query matching a node's exact range
returns the node unchanged. -/
theorem gss_exact (u : TextSpan) (s e : Nat) (hse : s ≤ e)
    (hstart : u.start = s) (hstop : u.stop = e) :
    u.get_sub_span_mut s e id = .ok (u, u) := by
  rw [TextSpan.get_sub_span_mut, if_neg (by omega : ¬ e < s), hstop,
    Nat.min_self, if_pos ⟨hstart.symm, rfl⟩]
  rfl

theorem gssList_cons_pos (c : TextSpan) (rest : List TextSpan) (s e : Nat)
    (f : TextSpan → TextSpan) (h : c.start ≤ s ∧ e ≤ c.stop)
    (c' sub : TextSpan) (hres : c.get_sub_span_mut s e f = .ok (c', sub)) :
    TextSpan.get_sub_span_list (c :: rest) s e f = .ok (c' :: rest, sub) := by
  rw [TextSpan.get_sub_span_list, if_pos h, hres, except_ok_bind]
  rfl

theorem gssList_cons_neg (c : TextSpan) (rest : List TextSpan) (s e : Nat)
    (f : TextSpan → TextSpan) (h : ¬ (c.start ≤ s ∧ e ≤ c.stop))
    (rest' : List TextSpan) (sub : TextSpan)
    (hres : TextSpan.get_sub_span_list rest s e f = .ok (rest', sub)) :
    TextSpan.get_sub_span_list (c :: rest) s e f = .ok (c :: rest', sub) := by
  rw [TextSpan.get_sub_span_list, if_neg h, hres, except_ok_bind]
  rfl

theorem gssList_nil_err (s e : Nat) (f : TextSpan → TextSpan) :
    TextSpan.get_sub_span_list [] s e f = .error (.noSuchSpan s e) := by
  rw [TextSpan.get_sub_span_list]
  rfl

theorem gssList_cons_err (c : TextSpan) (rest : List TextSpan) (s e : Nat)
    (f : TextSpan → TextSpan) (h : ¬ (c.start ≤ s ∧ e ≤ c.stop)) (err : RErr)
    (hres : TextSpan.get_sub_span_list rest s e f = .error err) :
    TextSpan.get_sub_span_list (c :: rest) s e f = .error err := by
  rw [TextSpan.get_sub_span_list, if_neg h, hres, except_error_bind]

theorem isBoundary_exists (text : List Char) (n : Nat)
    (h : isBoundary text n = true) :
    ∃ k, k ≤ text.length ∧ utf16_len (text.take k) = n := by
  simp only [isBoundary, List.any_eq_true, List.mem_range, Nat.lt_succ_iff,
    beq_iff_eq] at h
  exact h

/-- Success of `split_str` at the root (`offset = 0`): an in-range request
whose `start` and `end + 1` are codepoint boundaries always splits. -/
theorem split_str_root (text : List Char) (s e : Nat) (htext : text ≠ [])
    (hse : s ≤ e) (heL : e < utf16_len text)
    (hbs : isBoundary text s = true) (hbe : isBoundary text (e + 1) = true) :
    ∃ spans idx, TextSpan.split_str text 0 s e = .ok (spans, idx) := by
  obtain ⟨k1, hk1len, hk1⟩ := isBoundary_exists text s hbs
  obtain ⟨k2, hk2len, hk2⟩ := isBoundary_exists text (e + 1) hbe
  have hLtext : utf16_len (text.take text.length) = utf16_len text := by
    rw [List.take_length]
  have hmono12 : k1 ≤ k2 := by
    by_contra hlt
    have := utf16_len_take_add text k2 k1 (by omega)
    omega
  have hk1lt : k1 < text.length := by
    rcases Nat.lt_or_ge k1 text.length with h' | h'
    · exact h'
    · exfalso
      have : k1 = text.length := by omega
      subst this
      omega
  unfold TextSpan.split_str
  by_cases h1 : s = 0
  · rw [if_pos h1]
    simp only [except_pure, except_throw, except_pure_bind, except_ok_bind,
      except_error_bind, except_throw_bind]
    by_cases h2 : utf16_len text - 1 + 0 = e
    · rw [if_pos h2]
      exact ⟨_, _, rfl⟩
    · rw [if_neg h2]
      rw [if_neg (by omega : ¬ e < s)]
      have hk2lt : k2 < text.length := by
        rcases Nat.lt_or_ge k2 text.length with h' | h'
        · exact h'
        · exfalso
          have : k2 = text.length := by omega
          subst this
          have hL1 := utf16_len_pos text htext
          omega
      have hsplit := split_at_utf16_eq_take text k2 hk2lt
      rw [show utf16_len (text.take k2) = e - s + 1 by omega] at hsplit
      rw [hsplit]
      simp only [except_pure, except_throw, except_pure_bind, except_ok_bind,
        except_error_bind, except_throw_bind]
      exact ⟨_, _, rfl⟩
  · rw [if_neg h1, if_neg (by omega : ¬ s < 0)]
    have hsplit1 := split_at_utf16_eq_take text k1 hk1lt
    rw [show utf16_len (text.take k1) = s - 0 by omega] at hsplit1
    rw [hsplit1]
    simp only [except_pure, except_throw, except_pure_bind, except_ok_bind,
      except_error_bind, except_throw_bind]
    by_cases h2 : utf16_len text - 1 + 0 = e
    · rw [if_pos h2]
      exact ⟨_, _, rfl⟩
    · rw [if_neg h2]
      rw [if_neg (by omega : ¬ e < s)]
      have hk2lt : k2 < text.length := by
        rcases Nat.lt_or_ge k2 text.length with h' | h'
        · exact h'
        · exfalso
          have : k2 = text.length := by omega
          subst this
          have hL1 := utf16_len_pos text htext
          omega
      have hdroplen : k2 - k1 < (text.drop k1).length := by
        rw [List.length_drop]
        omega
      have hsplit2 := split_at_utf16_eq_take (text.drop k1) (k2 - k1) hdroplen
      have hlen2 : utf16_len ((text.drop k1).take (k2 - k1)) = e - s + 1 := by
        have := utf16_len_take_add text k1 k2 hmono12
        omega
      rw [hlen2] at hsplit2
      rw [hsplit2]
      simp only [except_pure, except_throw, except_pure_bind, except_ok_bind,
        except_error_bind, except_throw_bind]
      exact ⟨_, _, rfl⟩

theorem gssList_idem_aux (s e : Nat) :
    ∀ (l : List TextSpan),
      (∀ c ∈ l, ∀ t' sub, c.get_sub_span_mut s e id = .ok (t', sub) →
        t'.get_sub_span_mut s e id = .ok (t', sub)) →
      ∀ l' sub, TextSpan.get_sub_span_list l s e id = .ok (l', sub) →
        TextSpan.get_sub_span_list l' s e id = .ok (l', sub) := by
  intro l
  induction l with
  | nil =>
      intro _ l' sub h
      rw [TextSpan.get_sub_span_list] at h
      exact Except.noConfusion h
  | cons c rest ih =>
      intro IH l' sub h
      rw [TextSpan.get_sub_span_list] at h
      by_cases hc : c.start ≤ s ∧ e ≤ c.stop
      · rw [if_pos hc] at h
        cases hg : c.get_sub_span_mut s e id with
        | error err => rw [hg] at h; exact Except.noConfusion h
        | ok pr =>
            obtain ⟨c', sub2⟩ := pr
            rw [hg] at h
            simp only [except_pure_bind, except_ok_bind, except_pure] at h
            injection h with h'
            obtain ⟨rfl, rfl⟩ := Prod.mk.inj h'.symm
            have hrange := gss_range c s e id (fun u => ⟨rfl, rfl⟩) c' sub hg
            exact gssList_cons_pos c' rest s e id
              ⟨by rw [hrange.1]; exact hc.1, by rw [hrange.2]; exact hc.2⟩
              c' sub (IH c (by simp) c' sub hg)
      · rw [if_neg hc] at h
        cases hg : TextSpan.get_sub_span_list rest s e id with
        | error err => rw [hg] at h; exact Except.noConfusion h
        | ok pr =>
            obtain ⟨rest', sub2⟩ := pr
            rw [hg] at h
            simp only [except_pure_bind, except_ok_bind, except_pure] at h
            injection h with h'
            obtain ⟨rfl, rfl⟩ := Prod.mk.inj h'.symm
            exact gssList_cons_neg c rest' s e id hc rest' sub
              (ih (fun u hu => IH u (by simp [hu])) rest' sub hg)

theorem gss_idem_aux :
    ∀ (n : Nat) (t : TextSpan), sizeOf t < n → t.wf = true →
    ∀ (s e : Nat) (t' sub : TextSpan),
      t.get_sub_span_mut s e id = .ok (t', sub) →
      t'.get_sub_span_mut s e id = .ok (t', sub) := by
  intro n
  induction n with
  | zero => intro t ht; omega
  | succ n ihn =>
      intro t ht hwf s e t' sub h
      rw [TextSpan.get_sub_span_mut] at h
      by_cases hA : e < s
      · rw [if_pos hA] at h; exact Except.noConfusion h
      · rw [if_neg hA] at h
        by_cases hB : s = t.start ∧ min e t.stop = t.stop
        · rw [if_pos hB] at h
          simp only [id_eq, except_pure] at h
          injection h with h'
          obtain ⟨rfl, rfl⟩ := Prod.mk.inj h'.symm
          rw [TextSpan.get_sub_span_mut, if_neg hA, if_pos hB]
          rfl
        · rw [if_neg hB] at h
          cases t with
          | leaf st en content wraps =>
              simp only [TextSpan.stop, TextSpan.start] at h hB
              have hne : content ≠ [] := by
                intro hc
                subst hc
                simp [TextSpan.wf] at hwf
              have hen : en + 1 = st + utf16_len content := by
                simp only [TextSpan.wf, Bool.and_eq_true, beq_iff_eq] at hwf
                exact hwf.2
              cases hs : TextSpan.split_str content st s (min e en) with
              | error err => rw [hs] at h; exact Except.noConfusion h
              | ok pr =>
                  obtain ⟨spans, idx⟩ := pr
                  rw [hs] at h
                  simp only [except_pure_bind, except_ok_bind, except_pure] at h
                  cases hg : spans[idx]? with
                  | none => rw [hg] at h; exact Except.noConfusion h
                  | some c =>
                      rw [hg] at h
                      simp only [id_eq, except_pure] at h
                      injection h with h'
                      obtain ⟨rfl, rfl⟩ := Prod.mk.inj h'.symm
                      obtain ⟨hsts, hse2, heen, hcases⟩ :=
                        split_str_shape content st s (min e en) en hne hen
                          spans idx hs
                      rcases hcases with
                        ⟨h1, h2, hsp, hidx⟩ |
                        ⟨h1, h2, c2, q, hcat, hlc, hlq, hsp, hidx⟩ |
                        ⟨h1, h2, p, c2, hcat, hlp, hlc, hsp, hidx⟩ |
                        ⟨h1, h2, p, c2, q, hcat, hlp, hlc, hlq, hsp, hidx⟩
                      · exact absurd ⟨h1, by omega⟩ hB
                      · subst hsp hidx
                        simp only [List.getElem?_cons_zero, Option.some.injEq]
                          at hg
                        subst hg
                        simp only [List.set_cons_zero]
                        rw [TextSpan.get_sub_span_mut, if_neg hA]
                        simp only [TextSpan.stop, TextSpan.start]
                        rw [if_neg hB]
                        rw [gssList_cons_pos
                          (TextSpan.leaf s (min e en) c2 [])
                          [TextSpan.leaf (min e en + 1) en q []] s (min e en) id
                          ⟨Nat.le_refl s, Nat.le_refl (min e en)⟩
                          (TextSpan.leaf s (min e en) c2 [])
                          (TextSpan.leaf s (min e en) c2 [])
                          (gss_exact (TextSpan.leaf s (min e en) c2 []) s
                            (min e en) hse2 rfl rfl),
                          except_ok_bind]
                        rfl
                      · subst hsp hidx
                        simp only [List.getElem?_cons_zero,
                          List.getElem?_cons_succ, Option.some.injEq] at hg
                        subst hg
                        simp only [List.set_cons_succ, List.set_cons_zero]
                        rw [TextSpan.get_sub_span_mut, if_neg hA]
                        simp only [TextSpan.stop, TextSpan.start]
                        rw [if_neg hB]
                        rw [gssList_cons_neg (TextSpan.leaf st (s - 1) p [])
                          [TextSpan.leaf s (min e en) c2 []] s (min e en) id
                          (by
                            simp only [TextSpan.start, TextSpan.stop]
                            omega)
                          [TextSpan.leaf s (min e en) c2 []]
                          (TextSpan.leaf s (min e en) c2 [])
                          (gssList_cons_pos (TextSpan.leaf s (min e en) c2 [])
                            [] s (min e en) id
                            ⟨Nat.le_refl s, Nat.le_refl (min e en)⟩
                            (TextSpan.leaf s (min e en) c2 [])
                            (TextSpan.leaf s (min e en) c2 [])
                            (gss_exact (TextSpan.leaf s (min e en) c2 []) s
                              (min e en) hse2 rfl rfl)),
                          except_ok_bind]
                        rfl
                      · subst hsp hidx
                        simp only [List.getElem?_cons_zero,
                          List.getElem?_cons_succ, Option.some.injEq] at hg
                        subst hg
                        simp only [List.set_cons_succ, List.set_cons_zero]
                        rw [TextSpan.get_sub_span_mut, if_neg hA]
                        simp only [TextSpan.stop, TextSpan.start]
                        rw [if_neg hB]
                        rw [gssList_cons_neg (TextSpan.leaf st (s - 1) p [])
                          [TextSpan.leaf s (min e en) c2 [],
                           TextSpan.leaf (min e en + 1) en q []] s (min e en) id
                          (by
                            simp only [TextSpan.start, TextSpan.stop]
                            omega)
                          [TextSpan.leaf s (min e en) c2 [],
                           TextSpan.leaf (min e en + 1) en q []]
                          (TextSpan.leaf s (min e en) c2 [])
                          (gssList_cons_pos (TextSpan.leaf s (min e en) c2 [])
                            [TextSpan.leaf (min e en + 1) en q []] s (min e en)
                            id ⟨Nat.le_refl s, Nat.le_refl (min e en)⟩
                            (TextSpan.leaf s (min e en) c2 [])
                            (TextSpan.leaf s (min e en) c2 [])
                            (gss_exact (TextSpan.leaf s (min e en) c2 []) s
                              (min e en) hse2 rfl rfl)),
                          except_ok_bind]
                        rfl
          | node st en children wraps =>
              simp only [TextSpan.stop, TextSpan.start] at h hB
              cases hd : TextSpan.get_sub_span_list children s (min e en) id with
              | error err => rw [hd] at h; exact Except.noConfusion h
              | ok pr =>
                  obtain ⟨children', sub'⟩ := pr
                  rw [hd] at h
                  simp only [except_pure_bind, except_ok_bind, except_pure] at h
                  injection h with h'
                  obtain ⟨rfl, rfl⟩ := Prod.mk.inj h'.symm
                  have hlist : TextSpan.get_sub_span_list children' s
                      (min e en) id = .ok (children', sub) := by
                    refine gssList_idem_aux s (min e en) children
                      (fun c hc t'' sub'' hok => ?_) children' sub hd
                    have hmem := List.sizeOf_lt_of_mem hc
                    have hsz : sizeOf children <
                        sizeOf (TextSpan.node st en children wraps) := by
                      simp [TextSpan.node.sizeOf_spec]; omega
                    have hcw : c.wf = true := by
                      have hw := hwf
                      simp only [TextSpan.wf] at hw
                      exact wfList_mem children st en hw c hc
                    exact ihn c (by omega) hcw s (min e en) t'' sub'' hok
                  rw [TextSpan.get_sub_span_mut, if_neg hA]
                  simp only [TextSpan.stop, TextSpan.start]
                  rw [if_neg hB]
                  rw [hlist, except_ok_bind]
                  rfl

/-! ## Preservation of the leaf text by the splitter -/

theorem leafTextList_set (l : List TextSpan) (i : Nat) (c c' : TextSpan)
    (hc : l[i]? = some c) (h : c'.leafText = c.leafText) :
    TextSpan.leafTextList (l.set i c') = TextSpan.leafTextList l := by
  induction l generalizing i with
  | nil => simp at hc
  | cons a rest ih =>
      cases i with
      | zero =>
          simp at hc
          subst hc
          simp [List.set, TextSpan.leafTextList, h]
      | succ i =>
          simp at hc
          simp [List.set, TextSpan.leafTextList, ih i hc]

theorem add_wrap_leafText (u : TextSpan) (w : SpanWrap) :
    (u.add_wrap w).leafText = u.leafText := by
  cases u <;> rfl

theorem add_wrap_start (u : TextSpan) (w : SpanWrap) :
    (u.add_wrap w).start = u.start := by
  cases u <;> rfl

theorem add_wrap_stop (u : TextSpan) (w : SpanWrap) :
    (u.add_wrap w).stop = u.stop := by
  cases u <;> rfl

theorem gssList_preserves_leafText_aux (s e : Nat) (f : TextSpan → TextSpan)
    (l : List TextSpan)
    (IH : ∀ c ∈ l, ∀ t' sub, c.get_sub_span_mut s e f = .ok (t', sub) →
      t'.leafText = c.leafText) :
    ∀ l' sub, TextSpan.get_sub_span_list l s e f = .ok (l', sub) →
      TextSpan.leafTextList l' = TextSpan.leafTextList l := by
  induction l with
  | nil =>
      intro l' sub h
      rw [TextSpan.get_sub_span_list] at h
      exact Except.noConfusion h
  | cons c rest ih =>
      intro l' sub h
      rw [TextSpan.get_sub_span_list] at h
      by_cases hc : c.start ≤ s ∧ e ≤ c.stop
      · rw [if_pos hc] at h
        cases hg : c.get_sub_span_mut s e f with
        | error err => rw [hg] at h; exact Except.noConfusion h
        | ok pr =>
            obtain ⟨c', sub'⟩ := pr
            rw [hg] at h
            simp only [except_pure_bind, except_ok_bind, except_pure] at h
            injection h with h'
            obtain ⟨rfl, rfl⟩ := Prod.mk.inj h'.symm
            simp only [TextSpan.leafTextList]
            rw [IH c (by simp) c' sub hg]
      · rw [if_neg hc] at h
        cases hg : TextSpan.get_sub_span_list rest s e f with
        | error err => rw [hg] at h; exact Except.noConfusion h
        | ok pr =>
            obtain ⟨rest', sub'⟩ := pr
            rw [hg] at h
            simp only [except_pure_bind, except_ok_bind, except_pure] at h
            injection h with h'
            obtain ⟨rfl, rfl⟩ := Prod.mk.inj h'.symm
            simp only [TextSpan.leafTextList]
            rw [ih (fun u hu => IH u (by simp [hu])) rest' sub hg]

theorem gss_preserves_leafText_aux :
    ∀ (n : Nat) (t : TextSpan), sizeOf t < n →
    ∀ (s e : Nat) (f : TextSpan → TextSpan),
      (∀ u, (f u).leafText = u.leafText) →
    ∀ t' sub, t.get_sub_span_mut s e f = .ok (t', sub) →
      t'.leafText = t.leafText := by
  intro n
  induction n with
  | zero => intro t ht; omega
  | succ n ihn =>
      intro t ht s e f hf t' sub h
      rw [TextSpan.get_sub_span_mut] at h
      by_cases hA : e < s
      · rw [if_pos hA] at h
        exact Except.noConfusion h
      · rw [if_neg hA] at h
        simp only [] at h
        by_cases hB : s = t.start ∧ min e t.stop = t.stop
        · rw [if_pos hB] at h
          simp only [except_pure] at h
          injection h with h'
          obtain ⟨rfl, rfl⟩ := Prod.mk.inj h'.symm
          exact hf t
        · rw [if_neg hB] at h
          cases t with
          | leaf st en content wraps =>
              simp only [TextSpan.stop] at h
              cases hs : TextSpan.split_str content st s (min e en) with
              | error err => rw [hs] at h; exact Except.noConfusion h
              | ok pr =>
                  obtain ⟨spans, idx⟩ := pr
                  rw [hs] at h
                  simp only [except_pure_bind, except_ok_bind, except_pure] at h
                  cases hg : spans[idx]? with
                  | none => rw [hg] at h; exact Except.noConfusion h
                  | some c =>
                      rw [hg] at h
                      simp only [except_pure] at h
                      injection h with h'
                      obtain ⟨rfl, rfl⟩ := Prod.mk.inj h'.symm
                      show TextSpan.leafTextList (spans.set idx (f c)) = content
                      rw [leafTextList_set spans idx c (f c) hg (hf c)]
                      exact split_str_concat content st s (min e en) spans idx hs
          | node st en children wraps =>
              simp only [TextSpan.stop] at h
              cases hd : TextSpan.get_sub_span_list children s (min e en) f with
              | error err => rw [hd] at h; exact Except.noConfusion h
              | ok pr =>
                  obtain ⟨children', sub'⟩ := pr
                  rw [hd] at h
                  simp only [except_pure_bind, except_ok_bind, except_pure] at h
                  injection h with h'
                  obtain ⟨rfl, rfl⟩ := Prod.mk.inj h'.symm
                  show TextSpan.leafTextList children' =
                    TextSpan.leafTextList children
                  have hsz : sizeOf children <
                      sizeOf (TextSpan.node st en children wraps) := by
                    simp [TextSpan.node.sizeOf_spec]; omega
                  refine gssList_preserves_leafText_aux s (min e en) f children
                    (fun c hc t'' sub'' hok => ?_) children' sub hd
                  have hcsz : sizeOf c < n := by
                    have := List.sizeOf_lt_of_mem hc
                    omega
                  exact ihn c hcsz s (min e en) f hf t'' sub'' hok

theorem gss_preserves_leafText (t : TextSpan) (s e : Nat)
    (f : TextSpan → TextSpan) (hf : ∀ u, (f u).leafText = u.leafText)
    (t' sub : TextSpan) (h : t.get_sub_span_mut s e f = .ok (t', sub)) :
    t'.leafText = t.leafText :=
  gss_preserves_leafText_aux (sizeOf t + 1) t (by omega) s e f hf t' sub h

theorem applyMarkup_leafText (t : TextSpan) (m : Markup) (t' : TextSpan)
    (h : applyMarkup t m = .ok t') : t'.leafText = t.leafText := by
  unfold applyMarkup at h
  cases hr : resolve_markup_type m.ty m.href with
  | wrap w =>
      rw [hr] at h
      dsimp only [] at h
      cases hg : t.get_sub_span_mut m.start m.stop (fun u => u.add_wrap w) with
      | error err =>
          rw [hg, except_map_error] at h
          exact Except.noConfusion h
      | ok pr =>
          obtain ⟨t1, sub⟩ := pr
          rw [hg, except_map_ok] at h
          injection h with h'
          subst h'
          exact gss_preserves_leafText t m.start m.stop _
            (fun u => add_wrap_leafText u w) t1 sub hg
  | code =>
      rw [hr] at h
      dsimp only [] at h
      cases hg : t.get_sub_span_mut m.start m.stop id with
      | error err =>
          rw [hg, except_error_bind] at h
          exact Except.noConfusion h
      | ok pr =>
          rw [hg, except_ok_bind, except_throw] at h
          exact Except.noConfusion h
  | unknown ty =>
      rw [hr] at h
      dsimp only [] at h
      cases hg : t.get_sub_span_mut m.start m.stop id with
      | error err =>
          rw [hg, except_error_bind] at h
          exact Except.noConfusion h
      | ok pr =>
          rw [hg, except_ok_bind, except_throw] at h
          exact Except.noConfusion h

theorem foldlM_applyMarkup_leafText :
    ∀ (ms : List Markup) (t t' : TextSpan),
      ms.foldlM applyMarkup t = .ok t' → t'.leafText = t.leafText := by
  intro ms
  induction ms with
  | nil =>
      intro t t' h
      rw [List.foldlM_nil] at h
      simp only [except_pure] at h
      injection h with h'
      rw [h']
  | cons m rest ih =>
      intro t t' h
      rw [List.foldlM_cons] at h
      cases ha : applyMarkup t m with
      | error err =>
          rw [ha, except_error_bind] at h
          exact Except.noConfusion h
      | ok t1 =>
          rw [ha, except_ok_bind] at h
          rw [ih t1 t' h, applyMarkup_leafText t m t1 ha]

/-! ## Flattening preserves text -/

theorem textLeavesList_append (a b : List Content) :
    Content.textLeavesList (a ++ b) =
      Content.textLeavesList a ++ Content.textLeavesList b := by
  induction a with
  | nil => rfl
  | cons c rest ih => simp [Content.textLeavesList, ih]

theorem escape_append (a b : List Char) :
    escape (a ++ b) = escape a ++ escape b := by
  simp [escape]

theorem textLeaves_create_tag (w : SpanWrap) (cs : List Content) :
    (w.create_tag cs).textLeaves = Content.textLeavesList cs := by
  cases w <;> rfl

theorem textLeavesList_applyWraps :
    ∀ (ws : List SpanWrap) (inner : List Content),
      Content.textLeavesList (applyWraps inner ws) =
        Content.textLeavesList inner := by
  intro ws
  induction ws with
  | nil => intro inner; rfl
  | cons w ws ih =>
      intro inner
      show Content.textLeavesList (applyWraps [w.create_tag inner] ws) = _
      rw [ih [w.create_tag inner]]
      simp [Content.textLeavesList, textLeaves_create_tag]

theorem intoContentsList_textLeaves_aux (children : List TextSpan)
    (IH : ∀ c ∈ children,
      Content.textLeavesList c.intoContents = escape c.leafText) :
    Content.textLeavesList (TextSpan.intoContentsList children) =
      escape (TextSpan.leafTextList children) := by
  induction children with
  | nil => rfl
  | cons c rest ih =>
      rw [TextSpan.intoContentsList, TextSpan.leafTextList,
        textLeavesList_append, escape_append, IH c (by simp),
        ih (fun u hu => IH u (by simp [hu]))]

theorem intoContents_textLeaves_aux :
    ∀ (n : Nat) (t : TextSpan), sizeOf t < n →
      Content.textLeavesList t.intoContents = escape t.leafText := by
  intro n
  induction n with
  | zero => intro t ht; omega
  | succ n ihn =>
      intro t ht
      cases t with
      | leaf st en content wraps =>
          rw [TextSpan.intoContents, textLeavesList_applyWraps]
          simp [Content.textLeavesList, Content.textLeaves, Content.text,
            TextSpan.leafText]
      | node st en children wraps =>
          rw [TextSpan.intoContents, textLeavesList_applyWraps,
            TextSpan.leafText]
          refine intoContentsList_textLeaves_aux children (fun c hc => ?_)
          have hmem := List.sizeOf_lt_of_mem hc
          have hsz : sizeOf children <
              sizeOf (TextSpan.node st en children wraps) := by
            simp [TextSpan.node.sizeOf_spec]; omega
          exact ihn c (by omega)

theorem intoContents_textLeaves (t : TextSpan) :
    Content.textLeavesList t.intoContents = escape t.leafText :=
  intoContents_textLeaves_aux (sizeOf t + 1) t (by omega)

/-! ## Claim theorems (part 1) -/

/-- C1: for the text `"This is a test with some text"`, applying STRONG over
UTF-16 offsets [8,13] and EM over [10,13] through `render_text` yields, for
either order of the two ranges in the input list, the content-node sequence
`This is <strong>a <em>test</em></strong> with some text`, with the EM tag
strictly nested inside the STRONG tag over the overlap. -/
theorem C1_nesting_correctness :
    (render_text "This is a test with some text".toList
      [{ stop := 13, start := 8, href := none, ty := "STRONG" },
       { stop := 13, start := 10, href := none, ty := "EM" }] =
      .ok [Content.Text "This is ".toList,
           Content.Tag "strong" []
             (some [Content.Text "a ".toList,
                    Content.Tag "em" [] (some [Content.Text "test".toList])]),
           Content.Text " with some text".toList]) ∧
    (render_text "This is a test with some text".toList
      [{ stop := 13, start := 10, href := none, ty := "EM" },
       { stop := 13, start := 8, href := none, ty := "STRONG" }] =
      .ok [Content.Text "This is ".toList,
           Content.Tag "strong" []
             (some [Content.Text "a ".toList,
                    Content.Tag "em" [] (some [Content.Text "test".toList])]),
           Content.Text " with some text".toList]) :=
  ⟨rfl, rfl⟩

/-- C2 counterexample: the claim says every offset `≤` the text's total
UTF-16 length is translated and only an offset *exceeding* the total length
panics; but for `"a"` (total UTF-16 length 1) the in-contract offset 1 falls
off the end of the `char_indices` loop and hits `panic!("not in string")`
(modelled as `none`). -/
theorem C2_counterexample :
    1 ≤ utf16_len "a".toList ∧ utf16_to_byte_offset "a".toList 1 = none :=
  ⟨by decide, by decide⟩

/-- C2 (amended): for every offset that is a codepoint boundary *strictly
below* the text's total UTF-16 length — the UTF-16 length of a proper prefix
— `utf16_to_byte_offset` returns that prefix's byte offset, so all
codepoints before it encode to exactly that many UTF-16 units; every offset
greater than or equal to the total UTF-16 length is a fatal contract
violation (`panic!("not in string")`, modelled as `none`). -/
theorem C2_offset_translator :
    (∀ (content : List Char) (k : Nat), k < content.length →
       utf16_to_byte_offset content (utf16_len (content.take k)) =
         some (utf8_len (content.take k))) ∧
    (∀ (content : List Char) (off : Nat), utf16_len content ≤ off →
       utf16_to_byte_offset content off = none) :=
  ⟨utf16_to_byte_offset_boundary, utf16_to_byte_offset_none⟩

/-- C2 witness: the amended theorem applied at `"ab"`, prefix length 1 and
offset 2. -/
theorem C2_offset_translator_witness :
    utf16_to_byte_offset "ab".toList (utf16_len ("ab".toList.take 1)) =
      some (utf8_len ("ab".toList.take 1)) ∧
    utf16_to_byte_offset "ab".toList 2 = none :=
  ⟨C2_offset_translator.1 "ab".toList 1 (by decide),
   C2_offset_translator.2 "ab".toList 2 (by decide)⟩

/-- C3 counterexample: the claim says every markup kind other than STRONG,
EM and A resolves to a fatal error, but the kind-`match` of `render_text` has
a fourth arm mapping `"CODE"` to `SpanWrap::Code` (a variant that
`text_markup.rs` does not even declare), not to the wildcard panic. -/
theorem C3_counterexample :
    resolve_markup_type "CODE" none = MarkupResolution.code ∧
    MarkupResolution.code ≠ MarkupResolution.unknown "CODE" :=
  ⟨rfl, by decide⟩

/-- C3 (amended): the resolver maps STRONG to the Strong/Bold wrap, EM to the
Emphasis wrap, A to the Link wrap with href defaulting to the empty string
when absent, and additionally has an arm mapping CODE to a Code wrap
(referencing the undeclared variant `SpanWrap::Code`); every kind other than
these four hits the wildcard panic, never a silently ignored range. -/
theorem C3_kind_mapping :
    (∀ h, resolve_markup_type "STRONG" h = .wrap .Strong) ∧
    (∀ h, resolve_markup_type "EM" h = .wrap .Emphasized) ∧
    (resolve_markup_type "A" none = .wrap (.Link "")) ∧
    (∀ s, resolve_markup_type "A" (some s) = .wrap (.Link s)) ∧
    (∀ h, resolve_markup_type "CODE" h = .code) ∧
    (∀ ty h, ty ≠ "STRONG" → ty ≠ "CODE" → ty ≠ "EM" → ty ≠ "A" →
       resolve_markup_type ty h = .unknown ty) := by
  refine ⟨fun h => rfl, fun h => rfl, rfl, fun s => rfl, fun h => rfl,
    fun ty h h1 h2 h3 h4 => ?_⟩
  simp [resolve_markup_type, h1, h2, h3, h4]

/-- C3 witness: the wildcard arm of the amended theorem applied at the
unrecognized kind `"BLINK"`. -/
theorem C3_kind_mapping_witness :
    resolve_markup_type "BLINK" none = .unknown "BLINK" :=
  C3_kind_mapping.2.2.2.2.2 "BLINK" none (by decide) (by decide) (by decide)
    (by decide)

/-- C5 counterexample: the claim says the empty-markup short circuit returns
a text node whose string *equals the input text*, but `Content::text`
HTML-escapes `&`, `<`, `>`; for the input `"&"` the returned node holds
`"&amp;"`, not `"&"`. -/
theorem C5_counterexample :
    render_text "&".toList [] = .ok [Content.Text "&amp;".toList] ∧
    "&amp;".toList ≠ "&".toList :=
  ⟨rfl, by decide⟩

/-- C5 (amended): for every input text, `render_text` with an empty markup
list returns a single text content node holding the input text with `&`,
`<`, `>` HTML-escaped — equal to the input text exactly when the input
contains none of those characters — without constructing any span-tree
nodes (the short circuit fires before `TextSpan::create`). -/
theorem C5_empty_markup_short_circuit :
    (∀ text : List Char,
       render_text text [] = .ok [Content.Text (escape text)]) ∧
    (∀ text : List Char, (∀ c ∈ text, c ≠ '&' ∧ c ≠ '<' ∧ c ≠ '>') →
       render_text text [] = .ok [Content.Text text]) := by
  constructor
  · intro text; rfl
  · intro text h
    have : escape text = text := escape_eq_self text h
    show Except.ok [Content.Text (escape text)] = _
    rw [this]

/-- C5 witness: the amended theorem applied at the escape-free text
`"abc"`. -/
theorem C5_empty_markup_short_circuit_witness :
    render_text "abc".toList [] = .ok [Content.Text "abc".toList] :=
  C5_empty_markup_short_circuit.2 "abc".toList (by decide)

/-- C9 counterexample: the claim says that for malformed offsets with
`end < start` the engine clamps and does not crash mid-computation, but
`get_sub_span_mut` opens with `debug_assert!(end >= start)`: requesting
`[5, 2]` on the root of `"0123456789"` fails the assertion (a debug-build
crash) instead of being clamped. -/
theorem C9_counterexample :
    TextSpan.create "0123456789".toList =
      .ok (TextSpan.leaf 0 9 "0123456789".toList []) ∧
    (TextSpan.leaf 0 9 "0123456789".toList []).get_sub_span_mut 5 2 id =
      .error (RErr.assertEndGeStart 5 2) :=
  ⟨rfl, rfl⟩

/-- C9 (amended): for every range with `start ≤ end` whose `end` exceeds the
span's end while `start` is within it, `get_sub_span_mut` clamps `end` and
behaves exactly as if `end` equalled the span's end; a range with
`end < start` instead fails the `debug_assert!(end >= start)` (a debug-build
crash), and is not clamped. -/
theorem C9_end_clamped (t : TextSpan) (s e : Nat) (f : TextSpan → TextSpan)
    (hs : s ≤ t.stop) (he : t.stop ≤ e) :
    t.get_sub_span_mut s e f = t.get_sub_span_mut s t.stop f := by
  rw [TextSpan.get_sub_span_mut, TextSpan.get_sub_span_mut]
  have h1 : ¬ (e < s) := by omega
  have h2 : ¬ (t.stop < s) := by omega
  rw [if_neg h1, if_neg h2, Nat.min_eq_right he, Nat.min_self]

/-- C9 witness: the amended theorem applied to the root of `"0123456789"`
with the out-of-bounds range `[4, 25]`. -/
theorem C9_end_clamped_witness :
    4 ≤ (TextSpan.leaf 0 9 "0123456789".toList []).stop ∧
    (TextSpan.leaf 0 9 "0123456789".toList []).stop ≤ 25 ∧
    (TextSpan.leaf 0 9 "0123456789".toList []).get_sub_span_mut 4 25 id =
      (TextSpan.leaf 0 9 "0123456789".toList []).get_sub_span_mut 4
        (TextSpan.leaf 0 9 "0123456789".toList []).stop id :=
  ⟨by decide, by decide,
   C9_end_clamped (TextSpan.leaf 0 9 "0123456789".toList []) 4 25 id
     (by decide) (by decide)⟩

/-- C10: `TextSpan::create` requires a non-empty text: its root-end
computation `utf16_len(content) - 1` underflows on the empty string, so
every `render_text` call with an empty text and a non-empty markup list hits
the debug-build underflow panic instead of returning a result, while any
non-empty text builds its root span normally. -/
theorem C10_empty_text_underflow :
    (∀ (m : Markup) (ms : List Markup),
       render_text [] (m :: ms) = .error RErr.createUnderflow) ∧
    (∀ (c : Char) (cs : List Char),
       TextSpan.create (c :: cs) =
         .ok (.leaf 0 (utf16_len (c :: cs) - 1) (c :: cs) [])) :=
  ⟨fun _ _ => rfl, fun _ _ => rfl⟩

/-! ## The flattener's wrap application (C8) -/

theorem applyWrapsSpec_eq_foldl (ws : List SpanWrap) :
    ∀ inner, applyWrapsSpec inner ws =
      ws.foldl (fun acc w => [w.create_tag acc]) inner := by
  induction ws with
  | nil => intro inner; rfl
  | cons w ws ih => intro inner; rw [applyWrapsSpec, ih, List.foldl_cons]

theorem applyWrapsSpec_append_last (inner : List Content) (ws : List SpanWrap)
    (w : SpanWrap) :
    applyWrapsSpec inner (ws ++ [w]) = [w.create_tag (applyWrapsSpec inner ws)] := by
  induction ws generalizing inner with
  | nil => rfl
  | cons v ws ih => rw [List.cons_append, applyWrapsSpec, ih, applyWrapsSpec]

/-- C8: when a span carrying wraps is flattened, each wrap in stored order
re-wraps the entire currently assembled content as the sole children of one
new tagged node (first conjunct: the flattener equals that specification,
for both leaf and branch spans); consequently the first-stored wrap wraps
the assembled content directly (innermost, third conjunct) and the
last-stored wrap becomes the single outermost tag (second conjunct). -/
theorem C8_wrap_order :
    (∀ t : TextSpan, t.intoContents = applyWrapsSpec t.assembled t.wraps) ∧
    (∀ (inner : List Content) (ws : List SpanWrap) (w : SpanWrap),
       applyWrapsSpec inner (ws ++ [w]) =
         [w.create_tag (applyWrapsSpec inner ws)]) ∧
    (∀ (inner : List Content) (w : SpanWrap) (ws : List SpanWrap),
       applyWrapsSpec inner (w :: ws) = applyWrapsSpec [w.create_tag inner] ws) := by
  refine ⟨fun t => ?_, applyWrapsSpec_append_last, fun inner w ws => rfl⟩
  cases t with
  | leaf s e content wraps =>
      rw [TextSpan.intoContents, TextSpan.assembled, TextSpan.wraps,
        applyWrapsSpec_eq_foldl, applyWraps]
  | node s e children wraps =>
      rw [TextSpan.intoContents, TextSpan.assembled, TextSpan.wraps,
        applyWrapsSpec_eq_foldl, applyWraps]

/-- C6 counterexample: the claim says concatenating the output text leaves
reproduces the original input text *exactly*, but `Content::text` escapes
`&`, `<`, `>`: for the text `"&a"` under the single (hence trivially
disjoint/nested) range STRONG [0,1] the leaves concatenate to `"&amp;a"`,
not `"&a"`. -/
theorem C6_counterexample :
    render_text "&a".toList
      [{ stop := 1, start := 0, href := none, ty := "STRONG" }] =
      .ok [Content.Tag "strong" [] (some [Content.Text "&amp;a".toList])] ∧
    Content.textLeavesList
      [Content.Tag "strong" [] (some [Content.Text "&amp;a".toList])] ≠
      "&a".toList :=
  ⟨rfl, by decide⟩

/-- C6 (amended): for every text and every markup list for which
`render_text` succeeds (in particular any pairwise disjoint or properly
nested family), concatenating the strings of all text leaves of the output,
in output order, reproduces the HTML-escape of the original input text —
the original text itself whenever it contains no `&`, `<`, `>` — so the
leaves tile the text in order and no two output leaves cover overlapping
ranges. -/
theorem C6_text_preservation :
    (∀ (text : List Char) (markups : List Markup) (cs : List Content),
       render_text text markups = .ok cs →
       Content.textLeavesList cs = escape text) ∧
    (∀ (text : List Char) (markups : List Markup) (cs : List Content),
       (∀ c ∈ text, c ≠ '&' ∧ c ≠ '<' ∧ c ≠ '>') →
       render_text text markups = .ok cs →
       Content.textLeavesList cs = text) := by
  have main : ∀ (text : List Char) (markups : List Markup) (cs : List Content),
      render_text text markups = .ok cs →
      Content.textLeavesList cs = escape text := by
    intro text markups cs h
    unfold render_text at h
    by_cases hm : markups.isEmpty
    · rw [if_pos hm] at h
      injection h with h'
      rw [← h']
      simp [Content.textLeavesList, Content.textLeaves, Content.text]
    · rw [if_neg hm] at h
      unfold TextSpan.create at h
      by_cases ht : text.isEmpty
      · rw [if_pos ht, except_error_bind] at h
        exact Except.noConfusion h
      · rw [if_neg ht, except_ok_bind] at h
        cases hfold : (sortMarkups markups).foldlM applyMarkup
            (.leaf 0 (utf16_len text - 1) text []) with
        | error err =>
            rw [hfold, except_error_bind] at h
            exact Except.noConfusion h
        | ok final =>
            rw [hfold, except_ok_bind] at h
            injection h with h'
            rw [← h', intoContents_textLeaves final,
              foldlM_applyMarkup_leafText _ _ _ hfold]
            rfl
  exact ⟨main, fun text markups cs hchars h => by
    rw [main text markups cs h, escape_eq_self text hchars]⟩

/-- C6 witness: the amended theorem applied to the nesting example of the
repository's own test, whose successful output is computed by `rfl`. -/
theorem C6_text_preservation_witness :
    Content.textLeavesList
      [Content.Text "This is ".toList,
       Content.Tag "strong" []
         (some [Content.Text "a ".toList,
                Content.Tag "em" [] (some [Content.Text "test".toList])]),
       Content.Text " with some text".toList] =
      escape "This is a test with some text".toList :=
  C6_text_preservation.1 "This is a test with some text".toList
    [{ stop := 13, start := 8, href := none, ty := "STRONG" },
     { stop := 13, start := 10, href := none, ty := "EM" }] _ rfl

/-- C7: `get_sub_span_mut` is idempotent.  First conjunct: requesting the
full range `[t.start, t.stop]` of a node returns that node unchanged, with
no children created.  Second conjunct: on a well-formed span tree, repeating
the same `[start, end]` request on the tree produced by a successful first
request returns the node created by the first request, with no further
modification of the tree. -/
theorem C7_idempotence :
    (∀ t : TextSpan, t.start ≤ t.stop →
       t.get_sub_span_mut t.start t.stop id = .ok (t, t)) ∧
    (∀ (t : TextSpan) (s e : Nat) (t' sub : TextSpan), t.wf = true →
       t.get_sub_span_mut s e id = .ok (t', sub) →
       t'.get_sub_span_mut s e id = .ok (t', sub)) :=
  ⟨fun t h => gss_exact t t.start t.stop h rfl rfl,
   fun t s e t' sub hwf h =>
     gss_idem_aux (sizeOf t + 1) t (by omega) hwf s e t' sub h⟩

/-- C7 witness: the identity split on the root of `"0123456789"`, and the
re-application of the request `[4, 6]` to the tree created by the first
`[4, 6]` request. -/
theorem C7_idempotence_witness :
    (TextSpan.leaf 0 9 "0123456789".toList []).start ≤
      (TextSpan.leaf 0 9 "0123456789".toList []).stop ∧
    (TextSpan.leaf 0 9 "0123456789".toList []).get_sub_span_mut 0 9 id =
      .ok (TextSpan.leaf 0 9 "0123456789".toList [],
           TextSpan.leaf 0 9 "0123456789".toList []) ∧
    (TextSpan.leaf 0 9 "0123456789".toList []).wf = true ∧
    (TextSpan.node 0 9
      [TextSpan.leaf 0 3 "0123".toList [],
       TextSpan.leaf 4 6 "456".toList [],
       TextSpan.leaf 7 9 "789".toList []] []).get_sub_span_mut 4 6 id =
      .ok (TextSpan.node 0 9
        [TextSpan.leaf 0 3 "0123".toList [],
         TextSpan.leaf 4 6 "456".toList [],
         TextSpan.leaf 7 9 "789".toList []] [],
        TextSpan.leaf 4 6 "456".toList []) :=
  ⟨by decide,
   C7_idempotence.1 (TextSpan.leaf 0 9 "0123456789".toList []) (by decide),
   by decide,
   C7_idempotence.2 (TextSpan.leaf 0 9 "0123456789".toList []) 4 6
     (TextSpan.node 0 9
       [TextSpan.leaf 0 3 "0123".toList [],
        TextSpan.leaf 4 6 "456".toList [],
        TextSpan.leaf 7 9 "789".toList []] [])
     (TextSpan.leaf 4 6 "456".toList []) (by decide) rfl⟩

/-- C4: for every text and pair of overlapping, non-nested markup ranges of
equal length — both in bounds on codepoint boundaries, the first of a
recognized kind — `render_text` fails the whole paragraph with the
`NoSuchSpan` error of the second range (sorted equal-length ranges keep
input order; the second range straddles the split boundary created by the
first), rather than producing a partially-applied output tree. -/
theorem C4_conflict_detection (text : List Char) (m1 m2 : Markup)
    (w : SpanWrap) (htext : text ≠ [])
    (hk1 : resolve_markup_type m1.ty m1.href = .wrap w)
    (hs1 : m1.start ≤ m1.stop) (hs2 : m2.start ≤ m2.stop)
    (he1 : m1.stop < utf16_len text) (he2 : m2.stop < utf16_len text)
    (hb1 : isBoundary text m1.start = true)
    (hb1e : isBoundary text (m1.stop + 1) = true)
    (heq : m1.stop + m2.start = m2.stop + m1.start)
    (hne : m1.start ≠ m2.start)
    (hov1 : m2.start ≤ m1.stop) (hov2 : m1.start ≤ m2.stop) :
    render_text text [m1, m2] = .error (RErr.noSuchSpan m2.start m2.stop) := by
  have hL : 1 ≤ utf16_len text := utf16_len_pos text htext
  have hsort : sortMarkups [m1, m2] = [m1, m2] := by
    simp only [sortMarkups, List.foldl_cons, List.foldl_nil, insertDesc]
    rw [if_neg (by simp only [markupKey]; omega)]
  obtain ⟨spans, idx, hsp⟩ :=
    split_str_root text m1.start m1.stop htext hs1 he1 hb1 hb1e
  obtain ⟨hsts, hse', heen, hcases⟩ :=
    split_str_shape text 0 m1.start m1.stop (utf16_len text - 1) htext
      (by omega) spans idx hsp
  have hB2 : ¬ (m2.start = 0 ∧ m2.stop = utf16_len text - 1) := by omega
  suffices hsuff : ∃ t1,
      applyMarkup (TextSpan.leaf 0 (utf16_len text - 1) text []) m1 =
        .ok t1 ∧
      applyMarkup t1 m2 = .error (RErr.noSuchSpan m2.start m2.stop) by
    obtain ⟨t1, h1', h2'⟩ := hsuff
    unfold render_text
    rw [if_neg (by simp : ¬ ([m1, m2].isEmpty = true))]
    unfold TextSpan.create
    rw [if_neg (by simp [htext] : ¬ (text.isEmpty = true))]
    rw [except_ok_bind, hsort, List.foldlM_cons, h1', except_ok_bind,
      List.foldlM_cons, h2', except_error_bind, except_error_bind]
  have mk_apply2 : ∀ t1 : TextSpan,
      (∀ f', t1.get_sub_span_mut m2.start m2.stop f' =
        .error (RErr.noSuchSpan m2.start m2.stop)) →
      applyMarkup t1 m2 = .error (RErr.noSuchSpan m2.start m2.stop) := by
    intro t1 hgss2
    unfold applyMarkup
    cases hr2 : resolve_markup_type m2.ty m2.href with
    | wrap w2 =>
        dsimp only []
        rw [hgss2 _, except_map_error]
    | code =>
        dsimp only []
        rw [hgss2 id, except_error_bind]
    | unknown ty2 =>
        dsimp only []
        rw [hgss2 id, except_error_bind]
  rcases hcases with
    ⟨h1, h2, hspans, hidx⟩ |
    ⟨h1, h2, c2, q, hcat, hlc, hlq, hspans, hidx⟩ |
    ⟨h1, h2, p, c2, hcat, hlp, hlc, hspans, hidx⟩ |
    ⟨h1, h2, p, c2, q, hcat, hlp, hlc, hlq, hspans, hidx⟩
  · exact absurd rfl (by omega : ¬ (0 : Nat) = 0)
  · -- prefix absent, suffix present
    subst hspans hidx
    refine ⟨.node 0 (utf16_len text - 1)
      [.leaf m1.start m1.stop c2 [w],
       .leaf (m1.stop + 1) (utf16_len text - 1) q []] [], ?_, ?_⟩
    · unfold applyMarkup
      rw [hk1]
      dsimp only []
      rw [TextSpan.get_sub_span_mut,
        if_neg (by omega : ¬ m1.stop < m1.start)]
      simp only [TextSpan.start, TextSpan.stop]
      rw [Nat.min_eq_left (by omega : m1.stop ≤ utf16_len text - 1),
        if_neg (by omega : ¬ (m1.start = 0 ∧ m1.stop = utf16_len text - 1)),
        hsp, except_ok_bind]
      simp only [List.getElem?_cons_zero, List.set_cons_zero,
        TextSpan.add_wrap, List.nil_append, except_pure, except_map_ok]
    · refine mk_apply2 _ (fun f' => ?_)
      rw [TextSpan.get_sub_span_mut,
        if_neg (by omega : ¬ m2.stop < m2.start)]
      simp only [TextSpan.start, TextSpan.stop]
      rw [Nat.min_eq_left (by omega : m2.stop ≤ utf16_len text - 1),
        if_neg hB2,
        gssList_cons_err _ _ _ _ f'
          (by simp only [TextSpan.start, TextSpan.stop]; omega) _
          (gssList_cons_err _ _ _ _ f'
            (by simp only [TextSpan.start, TextSpan.stop]; omega) _
            (gssList_nil_err _ _ f')),
        except_error_bind]
  · -- prefix present, suffix absent
    subst hspans hidx
    refine ⟨.node 0 (utf16_len text - 1)
      [.leaf 0 (m1.start - 1) p [],
       .leaf m1.start m1.stop c2 [w]] [], ?_, ?_⟩
    · unfold applyMarkup
      rw [hk1]
      dsimp only []
      rw [TextSpan.get_sub_span_mut,
        if_neg (by omega : ¬ m1.stop < m1.start)]
      simp only [TextSpan.start, TextSpan.stop]
      rw [Nat.min_eq_left (by omega : m1.stop ≤ utf16_len text - 1),
        if_neg (by omega : ¬ (m1.start = 0 ∧ m1.stop = utf16_len text - 1)),
        hsp, except_ok_bind]
      simp only [List.getElem?_cons_zero, List.getElem?_cons_succ,
        List.set_cons_zero, List.set_cons_succ, TextSpan.add_wrap,
        List.nil_append, except_pure, except_map_ok]
    · refine mk_apply2 _ (fun f' => ?_)
      rw [TextSpan.get_sub_span_mut,
        if_neg (by omega : ¬ m2.stop < m2.start)]
      simp only [TextSpan.start, TextSpan.stop]
      rw [Nat.min_eq_left (by omega : m2.stop ≤ utf16_len text - 1),
        if_neg hB2,
        gssList_cons_err _ _ _ _ f'
          (by simp only [TextSpan.start, TextSpan.stop]; omega) _
          (gssList_cons_err _ _ _ _ f'
            (by simp only [TextSpan.start, TextSpan.stop]; omega) _
            (gssList_nil_err _ _ f')),
        except_error_bind]
  · -- prefix and suffix both present
    subst hspans hidx
    refine ⟨.node 0 (utf16_len text - 1)
      [.leaf 0 (m1.start - 1) p [],
       .leaf m1.start m1.stop c2 [w],
       .leaf (m1.stop + 1) (utf16_len text - 1) q []] [], ?_, ?_⟩
    · unfold applyMarkup
      rw [hk1]
      dsimp only []
      rw [TextSpan.get_sub_span_mut,
        if_neg (by omega : ¬ m1.stop < m1.start)]
      simp only [TextSpan.start, TextSpan.stop]
      rw [Nat.min_eq_left (by omega : m1.stop ≤ utf16_len text - 1),
        if_neg (by omega : ¬ (m1.start = 0 ∧ m1.stop = utf16_len text - 1)),
        hsp, except_ok_bind]
      simp only [List.getElem?_cons_zero, List.getElem?_cons_succ,
        List.set_cons_zero, List.set_cons_succ, TextSpan.add_wrap,
        List.nil_append, except_pure, except_map_ok]
    · refine mk_apply2 _ (fun f' => ?_)
      rw [TextSpan.get_sub_span_mut,
        if_neg (by omega : ¬ m2.stop < m2.start)]
      simp only [TextSpan.start, TextSpan.stop]
      rw [Nat.min_eq_left (by omega : m2.stop ≤ utf16_len text - 1),
        if_neg hB2,
        gssList_cons_err _ _ _ _ f'
          (by simp only [TextSpan.start, TextSpan.stop]; omega) _
          (gssList_cons_err _ _ _ _ f'
            (by simp only [TextSpan.start, TextSpan.stop]; omega) _
            (gssList_cons_err _ _ _ _ f'
              (by simp only [TextSpan.start, TextSpan.stop]; omega) _
              (gssList_nil_err _ _ f'))),
        except_error_bind]

/-- C4 witness: the conflict `STRONG [2,5]` against `EM [4,7]` on
`"0123456789"` — equal length, overlapping, non-nested — fails with
`NoSuchSpan(4, 7)`. -/
theorem C4_conflict_detection_witness :
    render_text "0123456789".toList
      [{ stop := 5, start := 2, href := none, ty := "STRONG" },
       { stop := 7, start := 4, href := none, ty := "EM" }] =
      .error (RErr.noSuchSpan 4 7) :=
  C4_conflict_detection "0123456789".toList
    { stop := 5, start := 2, href := none, ty := "STRONG" }
    { stop := 7, start := 4, href := none, ty := "EM" }
    SpanWrap.Strong (by decide) (by decide) (by decide) (by decide)
    (by decide) (by decide) (by decide) (by decide) (by decide)
    (by decide) (by decide) (by decide)

end MediumRare
